import Mathlib

/-!
Verification development for `Scripts/convert_minilm_to_coreml.py`.

The script converts a pretrained sentence-embedding transformer to a Core ML
package.  We give a shallow embedding of the parts of the script that carry
its own logic:

* `PoolingWrapper.forward` (mean pooling + L2 normalization), embedded as
  exact real arithmetic over finite index types (`Fin seq` positions, `Fin hid`
  hidden dimensions, batch size 1 as in the script);
* the `convert` pipeline, embedded as a pure function from an environment of
  third-party library-call outcomes (whether tracing / conversion / saving
  raise) to the emitted sequence of pipeline steps and the result, threading
  an explicit world state for the file written by `save`;
* the output-name normalization and the `__main__` entry point.
-/

namespace PocketSummarize

open Finset

variable {seq hid : ℕ}

/-- Exact-arithmetic value of the float constant `1e-9` used in
`clamp(min=1e-9)` on line 43 of the script. -/
def eps9 : ℚ := 1 / 1000000000

/-- Exact-arithmetic value of the default `eps=1e-12` of
`torch.nn.functional.normalize`, called on line 45 of the script. -/
noncomputable def epsNorm : ℝ := 1 / 1000000000000

/-- Line 42: `summed = (last_hidden * mask).sum(dim=1)`.  The hidden states
`h` are the base model's `last_hidden_state` for batch element 0, the mask `m`
is `attention_mask` cast to the hidden dtype (line 41).  Tensor arithmetic is
embedded as exact rational arithmetic. -/
def summed (h : Fin seq → Fin hid → ℚ) (m : Fin seq → ℚ) (j : Fin hid) : ℚ :=
  ∑ i, h i j * m i

/-- The sum `mask.sum(dim=1)` of the mask values, before clamping. -/
def maskSum (m : Fin seq → ℚ) : ℚ := ∑ i, m i

/-- Line 43: `denom = mask.sum(dim=1).clamp(min=1e-9)`.  `clamp(min=c)` is
`max · c`. -/
def denom (m : Fin seq → ℚ) : ℚ := max (maskSum m) eps9

/-- Line 44: `pooled = summed / denom`. -/
def pooled (h : Fin seq → Fin hid → ℚ) (m : Fin seq → ℚ) (j : Fin hid) : ℚ :=
  summed h m j / denom m

/-- The pooled vector of line 44, as a real-valued function on hidden
dimensions (the L2 norm below needs real square roots). -/
def pooledVec (h : Fin seq → Fin hid → ℚ) (m : Fin seq → ℚ) : Fin hid → ℝ :=
  fun j => ((pooled h m j : ℚ) : ℝ)

/-- Euclidean (L2) norm of a hidden-dimension vector. -/
noncomputable def l2norm (v : Fin hid → ℝ) : ℝ := Real.sqrt (∑ j, v j ^ 2)

/-- Line 45: `torch.nn.functional.normalize(pooled, p=2, dim=1)`, which
computes `v / max(l2norm v, eps)` with the default `eps = 1e-12`. -/
noncomputable def normalizeF (v : Fin hid → ℝ) : Fin hid → ℝ :=
  fun j => v j / max (l2norm v) epsNorm

/-- Embedding of `PoolingWrapper.forward` (lines 38-46): masked mean pooling
of the base model's last hidden state followed by L2 normalization. -/
noncomputable def forward (h : Fin seq → Fin hid → ℚ) (m : Fin seq → ℚ) :
    Fin hid → ℝ :=
  normalizeF (pooledVec h m)

/-- The set of unmasked positions (mask value nonzero). -/
def activeSet (m : Fin seq → ℚ) : Finset (Fin seq) :=
  univ.filter (fun i => m i ≠ 0)

/-- Reference mean pooling, following the spec words: the sum of the hidden
states at unmasked positions divided by the count of unmasked positions. -/
def refMeanPool (h : Fin seq → Fin hid → ℚ) (m : Fin seq → ℚ) (j : Fin hid) : ℚ :=
  (∑ i ∈ activeSet m, h i j) / (activeSet m).card

/-! ## The conversion pipeline -/

/-- The library calls the script performs, in the order printed by its
progress messages. -/
inductive Step where
  | loadTokenizer
  | loadModel
  | wrap
  | trace
  | script
  | convertCT
  | annotate
  | save
deriving DecidableEq

/-- The dtype declared for both pipeline inputs (`np.int32`, lines 80-81). -/
inductive DType where
  | int32
deriving DecidableEq

/-- A declared input tensor of the produced Core ML model
(`ct.TensorType(name=..., shape=..., dtype=...)`). -/
structure TensorDecl where
  name : List Char
  shape : List Nat
  dtype : DType
deriving DecidableEq

/-- Outcomes of the third-party library calls, which the script does not
control: the hidden size of the loaded base model (which fixes the embedding
width of the wrapper's output), and whether `torch.jit.trace`, `ct.convert`
and `mlmodel.save` raise.  `cwd` is the working directory `os.path.abspath`
resolves against. -/
structure Env where
  hiddenSize : Nat
  traceFails : Bool
  convertFails : Bool
  saveFails : Bool
  cwd : List Char
deriving DecidableEq

/-- The world state: the paths written by `mlmodel.save`. -/
structure World where
  files : List (List Char)
deriving DecidableEq

/-- The data a successful run of `convert` determines: the declared input
tensors, the shape of the embedding output, the name passed to
`mlmodel.save`, and the path returned on line 109. -/
structure ConvertOk where
  inputs : List TensorDecl
  outputShape : List Nat
  savedArg : List Char
  retPath : List Char
deriving DecidableEq

/-- The characters of the literal `".mlpackage"`. -/
def mlSuffix : List Char := ".mlpackage".data

/-- Python's `s.endswith(suf)`: the last `suf.length` characters of `s`
equal `suf`. -/
def endsWith (s suf : List Char) : Bool :=
  s.drop (s.length - suf.length) == suf

/-- Lines 95-96 of the script, translated literally:
`if not output_package.endswith(".mlpackage"): output_package = output_package
+ ("" if output_package.endswith(".mlpackage") else ".mlpackage")`. -/
def normalizeOutput (out : List Char) : List Char :=
  if endsWith out mlSuffix then out
  else out ++ (if endsWith out mlSuffix then [] else mlSuffix)

/-- Model of `os.path.abspath` (line 106): join against the working directory
unless the path is already absolute (path normalization of redundant
separators is not modelled; no argument of interest contains them). -/
def absPath (cwd p : List Char) : List Char :=
  if p.head? = some '/' then p else cwd ++ ('/' :: p)

/-- The two input declarations passed to `ct.convert` (lines 79-82): int32
tensors named `input_ids` and `attention_mask` whose shapes are those of the
dummy tokenizer outputs.  The tokenizer call (lines 52-56) uses
`max_length=seq_len, truncation=True, padding="max_length"` on a single
string, so both tensors have shape `(1, seq_len)`. -/
def inputDecls (seq_len : Nat) : List TensorDecl :=
  [⟨"input_ids".data, [1, seq_len], DType.int32⟩,
   ⟨"attention_mask".data, [1, seq_len], DType.int32⟩]

/-- Lines 64-72: `torch.jit.trace` is attempted; only if it raises is
`torch.jit.script` attempted as fallback. -/
def traceSteps (traceFails : Bool) : List Step :=
  if traceFails then [Step.trace, Step.script] else [Step.trace]

/-- The `convert` function (lines 24-109): the sequence of library calls it
performs, its result (the propagated exception, `Except.error`, when
`ct.convert` or `mlmodel.save` raise, since both handlers re-raise), and the
world after it. The output shape `[1, hiddenSize]` is the shape of the
wrapper's normalized output for batch size 1. -/
def convert (env : Env) (seq_len : Nat) (output_package : List Char)
    (w : World) : (List Step × Except Unit ConvertOk) × World :=
  let pre := [Step.loadTokenizer, Step.loadModel, Step.wrap] ++ traceSteps env.traceFails
  match env.convertFails with
  | true => ((pre ++ [Step.convertCT], Except.error ()), w)
  | false =>
      let saved := normalizeOutput output_package
      match env.saveFails with
      | true => ((pre ++ [Step.convertCT, Step.annotate, Step.save], Except.error ()), w)
      | false =>
          ((pre ++ [Step.convertCT, Step.annotate, Step.save],
            Except.ok ⟨inputDecls seq_len, [1, env.hiddenSize], saved,
                       absPath env.cwd saved⟩),
           ⟨saved :: w.files⟩)

/-- The `__main__` block (lines 111-124): call `convert`; on any exception
print the traceback and `sys.exit(1)`, otherwise fall off the end (process
exit status 0).  Returns the exit status and the steps performed. -/
def mainEntry (env : Env) (seq_len : Nat) (output_package : List Char)
    (w : World) : (Nat × List Step) × World :=
  match convert env seq_len output_package w with
  | ((steps, Except.error _), w') => ((1, steps), w')
  | ((steps, Except.ok _), w') => ((0, steps), w')

/-- Modelled from the spec: the pretrained model
`sentence-transformers/all-MiniLM-L6-v2` (whose weights are not part of this
repository) has hidden width 384, per the module docstring: "outputs an
L2-normalized embedding vector (shape: [1, 384])". -/
def miniLMHiddenSize : Nat := 384

/-! ### Concrete inputs used by witnesses and counterexamples -/

/-- An all-zero hidden-state tensor (sequence length 1, hidden width 1). -/
def hZero : Fin 1 → Fin 1 → ℚ := fun _ _ => 0

/-- An all-one hidden-state tensor (sequence length 1, hidden width 1). -/
def hOne : Fin 1 → Fin 1 → ℚ := fun _ _ => 1

/-- An all-one attention mask of sequence length 1. -/
def mOne : Fin 1 → ℚ := fun _ => 1

/-- A hidden-state tensor of sequence length 2 and hidden width 1. -/
def hEx : Fin 2 → Fin 1 → ℚ := fun i _ => if i = 0 then 3 else 5

/-- An attention mask of sequence length 2 masking the second position. -/
def mEx : Fin 2 → ℚ := fun i => if i = 0 then 1 else 0

/-- An environment in which every library call succeeds. -/
def envOk : Env := ⟨384, false, false, false, "/work".data⟩

/-- An environment in which `torch.jit.trace` raises. -/
def envTraceFail : Env := ⟨384, true, false, false, "/work".data⟩

/-- An environment in which `ct.convert` raises. -/
def envConvertFail : Env := ⟨384, false, true, false, "/work".data⟩

/-- An environment in which `mlmodel.save` raises. -/
def envSaveFail : Env := ⟨384, false, false, true, "/work".data⟩

/-- An empty world. -/
def w0 : World := ⟨[]⟩

/-- A world already holding a previously saved package. -/
def w1 : World := ⟨["Model.mlpackage".data]⟩

/-- A sample output name without the `.mlpackage` suffix. -/
def outEx : List Char := "Model".data

/-! ## Theorems -/

/-- Appending a suffix makes `endsWith` hold. -/
theorem endsWith_append (s suf : List Char) : endsWith (s ++ suf) suf = true := by
  unfold endsWith
  rw [List.length_append, Nat.add_sub_cancel, List.drop_left]
  exact beq_self_eq_true suf

/-- C7: the saved package path always ends with `".mlpackage"`: a name not
ending in `".mlpackage"` gets the suffix appended exactly once, a name
already ending in it is passed through unchanged, and the normalization is
idempotent. -/
theorem normalize_output_spec (s : List Char) :
    endsWith (normalizeOutput s) mlSuffix = true
    ∧ (endsWith s mlSuffix = true → normalizeOutput s = s)
    ∧ (endsWith s mlSuffix = false → normalizeOutput s = s ++ mlSuffix)
    ∧ normalizeOutput (normalizeOutput s) = normalizeOutput s := by
  by_cases hs : endsWith s mlSuffix = true
  · simp [normalizeOutput, hs]
  · have hs' : endsWith s mlSuffix = false := by
      cases h : endsWith s mlSuffix
      · rfl
      · exact absurd h hs
    have happ : normalizeOutput s = s ++ mlSuffix := by
      simp [normalizeOutput, hs']
    refine ⟨?_, ?_, ?_, ?_⟩
    · rw [happ]; exact endsWith_append s mlSuffix
    · intro h; exact absurd h hs
    · intro _; exact happ
    · rw [happ]
      simp [normalizeOutput, endsWith_append]

/-- C7 witness: the normalization evaluated at the concrete name `"Model"`. -/
theorem normalize_output_spec_witness :
    endsWith (normalizeOutput outEx) mlSuffix = true
    ∧ (endsWith outEx mlSuffix = true → normalizeOutput outEx = outEx)
    ∧ (endsWith outEx mlSuffix = false → normalizeOutput outEx = outEx ++ mlSuffix)
    ∧ normalizeOutput (normalizeOutput outEx) = normalizeOutput outEx :=
  normalize_output_spec outEx

/-- C9: the mean-pooling denominator is clamped to at least `1e-9`, so it is
never zero, for every attention mask including an all-zero one. -/
theorem denom_clamped (m : Fin seq → ℚ) : eps9 ≤ denom m ∧ denom m ≠ 0 := by
  have he : (0 : ℚ) < eps9 := by norm_num [eps9]
  exact ⟨le_max_right _ _,
    ne_of_gt (lt_of_lt_of_le he (le_max_right _ _))⟩

/-- C9 witness: the clamped denominator at a concrete all-one mask. -/
theorem denom_clamped_witness : eps9 ≤ denom mOne ∧ denom mOne ≠ 0 :=
  denom_clamped mOne

/-- C8: `convert` has no state persisting across invocations: the steps
performed and the result are independent of the incoming world, so a second
run with the same arguments (even on the world left by the first run)
behaves exactly like the first. -/
theorem convert_no_persistent_state (env : Env) (s : Nat) (out : List Char)
    (w w' : World) :
    (convert env s out w).1 = (convert env s out w').1
    ∧ (convert env s out ((convert env s out w).2)).1 = (convert env s out w).1 := by
  rcases env with ⟨hid, tf, cf, sf, cwd⟩
  cases cf <;> cases sf <;> simp [convert]

/-- C8 witness: a concrete second run on the world left by a first run. -/
theorem convert_no_persistent_state_witness :
    (convert envOk 64 outEx w0).1 = (convert envOk 64 outEx w1).1
    ∧ (convert envOk 64 outEx ((convert envOk 64 outEx w0).2)).1
        = (convert envOk 64 outEx w0).1 :=
  convert_no_persistent_state envOk 64 outEx w0 w1

/-- C5: whenever `convert` raises (conversion and save failures included,
which are printed and re-raised), the `__main__` entry point exits with
status 1, and performs exactly the steps `convert` performed: no retry and
no other recovery. -/
theorem main_exit_on_error (env : Env) (s : Nat) (out : List Char) (w : World)
    (herr : (convert env s out w).1.2 = Except.error ()) :
    (mainEntry env s out w).1.1 = 1
    ∧ (mainEntry env s out w).1.2 = (convert env s out w).1.1 := by
  rcases hc : convert env s out w with ⟨⟨steps, r⟩, w'⟩
  rw [hc] at herr
  cases r with
  | error e => simp [mainEntry, hc]
  | ok v => simp at herr

/-- C5 witness: a failing `ct.convert` makes the entry point exit with 1. -/
theorem main_exit_on_error_witness :
    (convert envConvertFail 64 outEx w0).1.2 = Except.error ()
    ∧ (mainEntry envConvertFail 64 outEx w0).1.1 = 1
    ∧ (mainEntry envConvertFail 64 outEx w0).1.2
        = (convert envConvertFail 64 outEx w0).1.1 := by
  have herr : (convert envConvertFail 64 outEx w0).1.2 = Except.error () := rfl
  exact ⟨herr, main_exit_on_error envConvertFail 64 outEx w0 herr⟩

/-- C4: the script has exactly one fallback branch: `torch.jit.script` is
attempted if and only if `torch.jit.trace` raises; and there is no other
recovery branch, since a failure of `ct.convert` or of `mlmodel.save`
propagates as the run's result. -/
theorem single_fallback (env : Env) (s : Nat) (out : List Char) (w : World) :
    (Step.script ∈ (convert env s out w).1.1 ↔ env.traceFails = true)
    ∧ (env.traceFails = false → Step.script ∉ (convert env s out w).1.1)
    ∧ (env.convertFails = true → (convert env s out w).1.2 = Except.error ())
    ∧ (env.convertFails = false → env.saveFails = true →
        (convert env s out w).1.2 = Except.error ()) := by
  rcases env with ⟨hid, tf, cf, sf, cwd⟩
  cases tf <;> cases cf <;> cases sf <;> simp [convert, traceSteps]

/-- C4 witness: in an environment where tracing fails, the fallback script
step is attempted; all conjuncts instantiated at that environment. -/
theorem single_fallback_witness :
    (Step.script ∈ (convert envTraceFail 64 outEx w0).1.1
      ↔ envTraceFail.traceFails = true)
    ∧ (envTraceFail.traceFails = false →
        Step.script ∉ (convert envTraceFail 64 outEx w0).1.1)
    ∧ (envTraceFail.convertFails = true →
        (convert envTraceFail 64 outEx w0).1.2 = Except.error ())
    ∧ (envTraceFail.convertFails = false → envTraceFail.saveFails = true →
        (convert envTraceFail 64 outEx w0).1.2 = Except.error ()) :=
  single_fallback envTraceFail 64 outEx w0

/-- C6: every successful run performs the library calls in exactly the
documented order, each exactly once, with `script` inserted after the failed
`trace` attempt only in the fallback case, and the step list is
duplicate-free. -/
theorem steps_in_order (env : Env) (s : Nat) (out : List Char) (w : World)
    (r : ConvertOk) (hok : (convert env s out w).1.2 = Except.ok r) :
    (convert env s out w).1.1
      = (if env.traceFails then
          [Step.loadTokenizer, Step.loadModel, Step.wrap, Step.trace,
           Step.script, Step.convertCT, Step.annotate, Step.save]
        else
          [Step.loadTokenizer, Step.loadModel, Step.wrap, Step.trace,
           Step.convertCT, Step.annotate, Step.save])
    ∧ ((convert env s out w).1.1).Nodup := by
  rcases env with ⟨hid, tf, cf, sf, cwd⟩
  cases tf <;> cases cf <;> cases sf <;>
    simp_all [convert, traceSteps]

/-- C6 witness: the step order of a concrete successful run, both without
and with the trace fallback. -/
theorem steps_in_order_witness :
    (convert envOk 64 outEx w0).1.2
        = Except.ok ⟨inputDecls 64, [1, 384], normalizeOutput outEx,
                     absPath envOk.cwd (normalizeOutput outEx)⟩
    ∧ ((convert envOk 64 outEx w0).1.1
        = (if envOk.traceFails then
            [Step.loadTokenizer, Step.loadModel, Step.wrap, Step.trace,
             Step.script, Step.convertCT, Step.annotate, Step.save]
          else
            [Step.loadTokenizer, Step.loadModel, Step.wrap, Step.trace,
             Step.convertCT, Step.annotate, Step.save])
        ∧ ((convert envOk 64 outEx w0).1.1).Nodup) := by
  have hok : (convert envOk 64 outEx w0).1.2
      = Except.ok ⟨inputDecls 64, [1, 384], normalizeOutput outEx,
                   absPath envOk.cwd (normalizeOutput outEx)⟩ := rfl
  exact ⟨hok, steps_in_order envOk 64 outEx w0 _ hok⟩

/-- C10: on success `convert` returns the absolutization of the normalized
output name, which is exactly the name that was passed to `mlmodel.save`. -/
theorem returns_abspath (env : Env) (s : Nat) (out : List Char) (w : World)
    (r : ConvertOk) (hok : (convert env s out w).1.2 = Except.ok r) :
    r.retPath = absPath env.cwd (normalizeOutput out)
    ∧ r.savedArg = normalizeOutput out
    ∧ r.retPath = absPath env.cwd r.savedArg := by
  rcases env with ⟨hid, tf, cf, sf, cwd⟩
  cases cf <;> cases sf <;> simp_all [convert]
  rcases hok with ⟨rfl, rfl, rfl, rfl⟩
  simp

/-- C10 witness: the returned path of a concrete successful run. -/
theorem returns_abspath_witness :
    (convert envOk 64 outEx w0).1.2
        = Except.ok ⟨inputDecls 64, [1, 384], normalizeOutput outEx,
                     absPath envOk.cwd (normalizeOutput outEx)⟩
    ∧ ((⟨inputDecls 64, [1, 384], normalizeOutput outEx,
         absPath envOk.cwd (normalizeOutput outEx)⟩ : ConvertOk).retPath
        = absPath envOk.cwd (normalizeOutput outEx)
    ∧ (⟨inputDecls 64, [1, 384], normalizeOutput outEx,
         absPath envOk.cwd (normalizeOutput outEx)⟩ : ConvertOk).savedArg
        = normalizeOutput outEx
    ∧ (⟨inputDecls 64, [1, 384], normalizeOutput outEx,
         absPath envOk.cwd (normalizeOutput outEx)⟩ : ConvertOk).retPath
        = absPath envOk.cwd
            ((⟨inputDecls 64, [1, 384], normalizeOutput outEx,
               absPath envOk.cwd (normalizeOutput outEx)⟩ : ConvertOk).savedArg)) := by
  have hok : (convert envOk 64 outEx w0).1.2
      = Except.ok ⟨inputDecls 64, [1, 384], normalizeOutput outEx,
                   absPath envOk.cwd (normalizeOutput outEx)⟩ := rfl
  exact ⟨hok, returns_abspath envOk 64 outEx w0 _ hok⟩

/-- C2: for every invocation with sequence length `s`, when the base model is
the default MiniLM (hidden width 384), the produced artifact declares both
inputs `input_ids` and `attention_mask` as int32 tensors of shape
`(1, s)`, and its single output is an embedding of shape `[1, 384]`. -/
theorem artifact_shapes (env : Env) (s : Nat) (out : List Char) (w : World)
    (r : ConvertOk) (hok : (convert env s out w).1.2 = Except.ok r)
    (hh : env.hiddenSize = miniLMHiddenSize) :
    r.inputs = [⟨"input_ids".data, [1, s], DType.int32⟩,
                ⟨"attention_mask".data, [1, s], DType.int32⟩]
    ∧ r.outputShape = [1, 384] := by
  rcases env with ⟨hid, tf, cf, sf, cwd⟩
  simp only [miniLMHiddenSize] at hh
  subst hh
  cases cf <;> cases sf <;> simp_all [convert, inputDecls]
  rcases hok with ⟨rfl, rfl, rfl, rfl⟩
  simp [inputDecls]

/-- C2 witness: the shapes of a concrete successful run at `seq_len = 64`. -/
theorem artifact_shapes_witness :
    (convert envOk 64 outEx w0).1.2
        = Except.ok ⟨inputDecls 64, [1, 384], normalizeOutput outEx,
                     absPath envOk.cwd (normalizeOutput outEx)⟩
    ∧ envOk.hiddenSize = miniLMHiddenSize
    ∧ ((⟨inputDecls 64, [1, 384], normalizeOutput outEx,
         absPath envOk.cwd (normalizeOutput outEx)⟩ : ConvertOk).inputs
        = [⟨"input_ids".data, [1, 64], DType.int32⟩,
           ⟨"attention_mask".data, [1, 64], DType.int32⟩]
    ∧ (⟨inputDecls 64, [1, 384], normalizeOutput outEx,
         absPath envOk.cwd (normalizeOutput outEx)⟩ : ConvertOk).outputShape
        = [1, 384]) := by
  have hok : (convert envOk 64 outEx w0).1.2
      = Except.ok ⟨inputDecls 64, [1, 384], normalizeOutput outEx,
                   absPath envOk.cwd (normalizeOutput outEx)⟩ := rfl
  exact ⟨hok, rfl, artifact_shapes envOk 64 outEx w0 _ hok rfl⟩

/-- On a binary mask, every unmasked position holds the value 1. -/
theorem active_val_one (m : Fin seq → ℚ) (hbin : ∀ i, m i = 0 ∨ m i = 1) :
    ∀ i ∈ activeSet m, m i = 1 := by
  intro i hi
  rcases hbin i with h0 | h1
  · rw [activeSet, mem_filter] at hi
    exact absurd h0 hi.2
  · exact h1

/-- On a binary mask, the mask sum counts the unmasked positions. -/
theorem maskSum_eq_card (m : Fin seq → ℚ) (hbin : ∀ i, m i = 0 ∨ m i = 1) :
    maskSum m = ((activeSet m).card : ℚ) := by
  have hsplit : (∑ i ∈ activeSet m, m i)
      + (∑ i ∈ univ.filter (fun i => ¬m i ≠ 0), m i) = maskSum m := by
    unfold maskSum activeSet
    exact Finset.sum_filter_add_sum_filter_not univ (fun i => m i ≠ 0) m
  have h1 : ∑ i ∈ activeSet m, m i = ((activeSet m).card : ℚ) := by
    rw [Finset.sum_eq_card_nsmul (active_val_one m hbin),
      nsmul_eq_mul, mul_one]
  have h2 : ∑ i ∈ univ.filter (fun i => ¬m i ≠ 0), m i = 0 := by
    refine Finset.sum_eq_zero fun i hi => ?_
    rw [mem_filter, not_not] at hi
    exact hi.2
  rw [← hsplit, h1, h2, add_zero]

/-- On a binary mask, the masked sum restricts to the unmasked positions. -/
theorem summed_eq_active (h : Fin seq → Fin hid → ℚ) (m : Fin seq → ℚ)
    (hbin : ∀ i, m i = 0 ∨ m i = 1) (j : Fin hid) :
    summed h m j = ∑ i ∈ activeSet m, h i j := by
  have hsplit : (∑ i ∈ activeSet m, h i j * m i)
      + (∑ i ∈ univ.filter (fun i => ¬m i ≠ 0), h i j * m i) = summed h m j := by
    unfold summed activeSet
    exact Finset.sum_filter_add_sum_filter_not univ (fun i => m i ≠ 0)
      (fun i => h i j * m i)
  have h2 : ∑ i ∈ univ.filter (fun i => ¬m i ≠ 0), h i j * m i = 0 := by
    refine Finset.sum_eq_zero fun i hi => ?_
    rw [mem_filter, not_not] at hi
    rw [hi.2, mul_zero]
  have h1 : ∑ i ∈ activeSet m, h i j * m i = ∑ i ∈ activeSet m, h i j := by
    refine Finset.sum_congr rfl fun i hi => ?_
    rw [active_val_one m hbin i hi, mul_one]
  rw [← hsplit, h1, h2, add_zero]

/-- When the mask has an unmasked position, the clamp on the denominator is
inactive: the denominator is the number of unmasked positions. -/
theorem denom_eq_card (m : Fin seq → ℚ) (hbin : ∀ i, m i = 0 ∨ m i = 1)
    (hne : ∃ i, m i ≠ 0) : denom m = ((activeSet m).card : ℚ) := by
  obtain ⟨i, hi⟩ := hne
  have hmem : i ∈ activeSet m := by
    rw [activeSet, mem_filter]
    exact ⟨mem_univ i, hi⟩
  have hcard : (1 : ℚ) ≤ ((activeSet m).card : ℚ) := by
    exact_mod_cast Finset.card_pos.mpr ⟨i, hmem⟩
  unfold denom
  rw [maskSum_eq_card m hbin]
  refine max_eq_left (le_trans ?_ hcard)
  norm_num [eps9]

/-- C1: on a binary attention mask with at least one nonzero entry,
`PoolingWrapper.forward` returns the L2-normalization of the masked mean,
and the masked mean (hidden states times mask, summed over the sequence,
divided by the sum of mask values) equals the reference mean pooling: the
sum of hidden states at unmasked positions divided by their count. -/
theorem pooling_matches_reference (h : Fin seq → Fin hid → ℚ)
    (m : Fin seq → ℚ) (hbin : ∀ i, m i = 0 ∨ m i = 1)
    (hne : ∃ i, m i ≠ 0) :
    (∀ j, pooled h m j = refMeanPool h m j)
    ∧ forward h m = normalizeF (fun j => ((refMeanPool h m j : ℚ) : ℝ)) := by
  have hp : ∀ j, pooled h m j = refMeanPool h m j := by
    intro j
    unfold pooled refMeanPool
    rw [summed_eq_active h m hbin j, denom_eq_card m hbin hne]
  refine ⟨hp, ?_⟩
  have hvec : pooledVec h m = fun j => ((refMeanPool h m j : ℚ) : ℝ) := by
    funext j
    unfold pooledVec
    rw [hp j]
  unfold forward
  rw [hvec]

/-- C1 witness: a concrete sequence of length 2 with the second position
masked; the pooled value is the hidden state at the unmasked position. -/
theorem pooling_matches_reference_witness :
    (∀ i, mEx i = 0 ∨ mEx i = 1) ∧ (∃ i, mEx i ≠ 0)
    ∧ ((∀ j, pooled hEx mEx j = refMeanPool hEx mEx j)
       ∧ forward hEx mEx
          = normalizeF (fun j => ((refMeanPool hEx mEx j : ℚ) : ℝ))) := by
  have hbin : ∀ i, mEx i = 0 ∨ mEx i = 1 := by decide
  have hne : ∃ i, mEx i ≠ 0 := ⟨0, by decide⟩
  exact ⟨hbin, hne, pooling_matches_reference hEx mEx hbin hne⟩

/-- C3 (amended): whenever the pooled vector's Euclidean norm is at least
the normalization epsilon `1e-12`, the vector returned by
`PoolingWrapper.forward` has Euclidean norm exactly 1. -/
theorem forward_norm_one (h : Fin seq → Fin hid → ℚ) (m : Fin seq → ℚ)
    (hge : epsNorm ≤ l2norm (pooledVec h m)) :
    l2norm (forward h m) = 1 := by
  set v : Fin hid → ℝ := pooledVec h m with hv
  have hnn : (0 : ℝ) ≤ ∑ j, v j ^ 2 :=
    Finset.sum_nonneg fun j _ => sq_nonneg _
  have heps : (0 : ℝ) < epsNorm := by norm_num [epsNorm]
  have hn0 : (0 : ℝ) < l2norm v := lt_of_lt_of_le heps hge
  have hsq : l2norm v ^ 2 = ∑ j, v j ^ 2 := Real.sq_sqrt hnn
  have hfw : forward h m = fun j => v j / l2norm v := by
    unfold forward normalizeF
    rw [← hv, max_eq_left hge]
  rw [hfw]
  have hsum : ∑ j, (v j / l2norm v) ^ 2 = 1 := by
    have hd : ∀ j, (v j / l2norm v) ^ 2 = v j ^ 2 / l2norm v ^ 2 := fun j =>
      div_pow (v j) (l2norm v) 2
    rw [Finset.sum_congr rfl fun j _ => hd j, ← Finset.sum_div, ← hsq,
      div_self (pow_ne_zero 2 (ne_of_gt hn0))]
  show Real.sqrt (∑ j, (v j / l2norm v) ^ 2) = 1
  rw [hsum, Real.sqrt_one]

/-- C3 witness: for the all-one hidden state and all-one mask of length 1,
the pooled vector is `(1)`, whose norm exceeds the epsilon, and the
returned vector has norm 1. -/
theorem forward_norm_one_witness :
    epsNorm ≤ l2norm (pooledVec hOne mOne)
    ∧ l2norm (forward hOne mOne) = 1 := by
  have hp : pooledVec hOne mOne = fun _ => (1 : ℝ) := by
    funext j
    have hd : denom mOne = 1 := by
      unfold denom maskSum
      rw [Fin.sum_univ_one]
      norm_num [mOne, eps9]
    unfold pooledVec pooled
    rw [hd]
    unfold summed
    rw [Fin.sum_univ_one]
    norm_num [hOne, mOne]
  have hl : l2norm (pooledVec hOne mOne) = 1 := by
    rw [hp]
    unfold l2norm
    rw [Fin.sum_univ_one, one_pow, Real.sqrt_one]
  have hge : epsNorm ≤ l2norm (pooledVec hOne mOne) := by
    rw [hl]
    norm_num [epsNorm]
  exact ⟨hge, forward_norm_one hOne mOne hge⟩

/-- C3 counterexample: with an all-zero hidden state the pooled vector is
zero, normalization divides by the epsilon, and the returned vector is the
zero vector, whose Euclidean norm is 0, not 1. -/
theorem forward_norm_counterexample :
    l2norm (forward hZero mOne) ≠ 1 := by
  have hp : pooledVec hZero mOne = fun _ => (0 : ℝ) := by
    funext j
    unfold pooledVec pooled summed
    rw [Fin.sum_univ_one]
    norm_num [hZero]
  have hfw : forward hZero mOne = fun _ => (0 : ℝ) := by
    unfold forward normalizeF
    rw [hp]
    funext j
    simp
  rw [hfw]
  unfold l2norm
  rw [Fin.sum_univ_one]
  norm_num

end PocketSummarize
